import Mathlib

/-!
yustat: a verification development

A shallow embedding of `src/yustat.cpp` and theorems about it.

Conventions of the embedding.

* `std::string` is a `List Char`.  The only characters the program searches for
  (`{`, `}`, blanks, digits, ASCII field names) are ASCII, so positions counted in
  characters and positions counted in bytes agree on every comparison the code makes.
* `size_t` is a `Nat` with an explicit `% 2 ^ 64`; `int` is an `Int` obtained through
  `toInt32`; `time_t` counters are `Int`.
* `double` is modelled by exact rational arithmetic (`ℚ`).
* A search that yields `std::string::npos` returns `none`.
* What the C++ standard library formats (fixed-point output of a `double`, the default
  output of a `double`, `std::put_time`) is a parameter, collected in `Fmt`.
-/

namespace Yustat

/-! ## String helpers (lines 12-41) -/

/-- The type of `std::string` values. -/
abbrev Str := List Char

/-- Models `StartsWith`: `str.rfind(prefix, 0) != npos`, which holds exactly when `pre` occurs
at position 0. -/
def StartsWith (str pre : Str) : Bool :=
  pre.isPrefixOf str

/-- Models `EndsWith`: the size test and the comparison of the last `suffix.size()` characters. -/
def EndsWith (str suffix : Str) : Bool :=
  decide (suffix.length ≤ str.length) && (str.drop (str.length - suffix.length) == suffix)

/-- Models `std::string::substr(pos, count)`. -/
def substr (str : Str) (pos count : Nat) : Str :=
  (str.drop pos).take count

/-- Models `RemovePrefix`. -/
def RemovePrefix (str pre : Str) : Str :=
  if StartsWith str pre then str.drop pre.length else str

/-- Models `RemoveSuffix`. -/
def RemoveSuffix (str suffix : Str) : Str :=
  if EndsWith str suffix then substr str 0 (str.length - suffix.length) else str

/-- The blank set `" \t\n\r"` used by `Trim`. -/
def kBlank : Str := [' ', Char.ofNat 9, Char.ofNat 10, Char.ofNat 13]

/-- Models `find_first_not_of(set)`: the first position whose character is not in `set`. -/
def find_first_not_of (str set : Str) : Option Nat :=
  let i := str.findIdx (fun c => !set.contains c)
  if i < str.length then some i else none

/-- Models `find_last_not_of(set)`: the last position whose character is not in `set`. -/
def find_last_not_of (str set : Str) : Option Nat :=
  let j := str.reverse.findIdx (fun c => !set.contains c)
  if j < str.length then some (str.length - 1 - j) else none

/-- Models `Trim` (lines 34-41).  The count handed to `substr` is `p2 - p1`, as in the source. -/
def Trim (str : Str) : Str :=
  match find_first_not_of str kBlank with
  | none => str
  | some p1 =>
    match find_last_not_of str kBlank with
    | none => substr str p1 (2 ^ 64 - 1 - p1)
    | some p2 => substr str p1 (p2 - p1)

/-! ## `std::stoull` -/

/-- Models `isspace` in the "C" locale. -/
def isspace (c : Char) : Bool :=
  c == ' ' || (9 ≤ c.toNat && c.toNat ≤ 13)

/-- Value of a run of decimal digits. -/
def digitsValue (ds : Str) : Nat :=
  ds.foldl (fun acc c => 10 * acc + (c.toNat - 48)) 0

/-- Models `std::stoull(str)` in base 10: leading blanks are skipped, one sign is accepted, the
longest run of digits is read.  `none` stands for the exception thrown when there is no
digit (`std::invalid_argument`) or the value does not fit (`std::out_of_range`). -/
def stoull (str : Str) : Option Nat :=
  let s1 := str.dropWhile isspace
  let neg := s1.head? == some '-'
  let s2 := if s1.head? == some '-' || s1.head? == some '+' then s1.tail else s1
  let ds := s2.takeWhile Char.isDigit
  if ds.isEmpty then none
  else if 2 ^ 64 ≤ digitsValue ds then none
  else some (if neg then (2 ^ 64 - digitsValue ds) % 2 ^ 64 else digitsValue ds)

/-! ## The `Stat` object (lines 301-327) -/

/-- The data members of `Stat`. -/
structure Stat where
  uptime_ : ℚ
  mem_total_ : Nat
  mem_available_ : Nat
  swap_total_ : Nat
  swap_free_ : Nat
  last_cpu_busy_times_ : List Int
  last_cpu_idle_times_ : List Int
  cpu_usages_ : List ℚ
  load1_ : ℚ
  load5_ : ℚ
  load15_ : ℚ
  procs_ : Str
  wall_clock_ : Int

/-- How an updating member function ends: normally, or by an exception that leaves the
object as it was at the throwing statement. -/
inductive Ended where
  | done (s : Stat)
  | thrown (s : Stat)

/-- The object as the call left it. -/
def Ended.stat : Ended → Stat
  | .done s => s
  | .thrown s => s

/-- Whether the call ended normally. -/
def Ended.isDone : Ended → Bool
  | .done _ => true
  | .thrown _ => false

/-! ## `Stat::UpdateMemory` (lines 149-168) -/

/-- The field name `kMemoryTotal`. -/
def kMemoryTotal : Str := "MemTotal:".toList
/-- The field name `kMemoryAvailable`. -/
def kMemoryAvailable : Str := "MemAvailable:".toList
/-- The field name `kSwapTotal`. -/
def kSwapTotal : Str := "SwapTotal:".toList
/-- The field name `kSwapFree`. -/
def kSwapFree : Str := "SwapFree:".toList
/-- The unit suffix `"kB"`. -/
def kKB : Str := "kB".toList

/-- The expression `std::stoull(Trim(RemoveSuffix(RemovePrefix(line, name), "kB")))`. -/
def parseField (line name : Str) : Option Nat :=
  stoull (Trim (RemoveSuffix (RemovePrefix line name) kKB))

/-- The body of the `getline` loop for one line. -/
def UpdateMemoryLine (s : Stat) (line : Str) : Ended :=
  if StartsWith line kMemoryTotal then
    match parseField line kMemoryTotal with
    | some v => .done { s with mem_total_ := v }
    | none => .thrown s
  else if StartsWith line kMemoryAvailable then
    match parseField line kMemoryAvailable with
    | some v => .done { s with mem_available_ := v }
    | none => .thrown s
  else if StartsWith line kSwapTotal then
    match parseField line kSwapTotal with
    | some v => .done { s with swap_total_ := v }
    | none => .thrown s
  else if StartsWith line kSwapFree then
    match parseField line kSwapFree with
    | some v => .done { s with swap_free_ := v }
    | none => .thrown s
  else .done s

/-- Models `Stat::UpdateMemory` over the lines of `/proc/meminfo`. -/
def UpdateMemory (s : Stat) : List Str → Ended
  | [] => .done s
  | line :: rest =>
    match UpdateMemoryLine s line with
    | .done s1 => UpdateMemory s1 rest
    | .thrown s1 => .thrown s1

/-- A `Stat` with every member zero or empty. -/
def Stat.zero : Stat :=
  { uptime_ := 0, mem_total_ := 0, mem_available_ := 0, swap_total_ := 0, swap_free_ := 0,
    last_cpu_busy_times_ := [], last_cpu_idle_times_ := [], cpu_usages_ := [],
    load1_ := 0, load5_ := 0, load15_ := 0, procs_ := [], wall_clock_ := 0 }

/-! ## Machine integers -/

/-- Conversion of a signed integer to `size_t` (64 bits). -/
def toSizeT (x : Int) : Nat :=
  (x % 2 ^ 64).toNat

/-- Narrowing of an integer value to `int` (32 bits, two's complement). -/
def toInt32 (x : Int) : Int :=
  (x + 2 ^ 31) % 2 ^ 32 - 2 ^ 31

/-- Conversion of a `double` to an integer type: the fractional part is discarded
(the conversion is undefined in C++ when the result does not fit the target type). -/
def truncToInt (q : ℚ) : Int :=
  if 0 ≤ q then ⌊q⌋ else ⌈q⌉

/-! ## Formatting -/

/-- Formatting done by the C++ standard library, taken as given. -/
structure Fmt where
  /-- Models `os << std::fixed << std::setw(5) << std::setprecision(1) << std::setfill(' ') << x`. -/
  fixed1 : ℚ → Str
  /-- Models `os << x` for a `double` in the default float format. -/
  dbl : ℚ → Str
  /-- Models `localtime_r` followed by `std::put_time(&tm, "%F(%a) %T")`. -/
  put_time : Int → Str

/-- Decimal output of an `int`. -/
def showInt : Int → Str
  | .ofNat n => Nat.toDigits 10 n
  | .negSucc n => '-' :: Nat.toDigits 10 (n + 1)

/-- Output of `text` under `std::setw(w) << std::setfill(fill)` (right adjusted). -/
def setw (w : Nat) (fill : Char) (text : Str) : Str :=
  List.replicate (w - text.length) fill ++ text

/-- Models `to_percentage` (lines 43-51), for `T = size_t` and for `T = double`. -/
def to_percentage (F : Fmt) (value total : ℚ) : Str :=
  if total = 0 then "  0.0%".toList
  else F.fixed1 (100 * value / total) ++ "%".toList

/-- Models `human_readable_time` (lines 53-73). -/
def human_readable_time (time : ℚ) : Str :=
  let epoch : Int := truncToInt time
  let sec : Int := toInt32 (epoch.tmod 60)
  let epoch := epoch.tdiv 60
  let min : Int := toInt32 (epoch.tmod 60)
  let epoch := epoch.tdiv 60
  let hour : Int := toInt32 (Int.land epoch 24)
  let epoch := epoch.tdiv 24
  let day : Int := toInt32 epoch
  showInt day ++ "days ".toList ++ setw 2 '0' (showInt hour) ++ ":".toList
    ++ setw 2 '0' (showInt min) ++ ":".toList ++ setw 2 '0' (showInt sec)

/-! ## Bars (lines 75-104) -/

/-- The ramp of `gen_bar`: a space, then U+258F down to U+2588. -/
def kBlocks : List Char :=
  [' ', Char.ofNat 0x258f, Char.ofNat 0x258e, Char.ofNat 0x258d, Char.ofNat 0x258c,
   Char.ofNat 0x258b, Char.ofNat 0x258a, Char.ofNat 0x2589, Char.ofNat 0x2588]

/-- The ramp of `gen_vertical_bar`: a space, then U+2581 up to U+2588. -/
def kVBlocks : List Char :=
  [' ', Char.ofNat 0x2581, Char.ofNat 0x2582, Char.ofNat 0x2583, Char.ofNat 0x2584,
   Char.ofNat 0x2585, Char.ofNat 0x2586, Char.ofNat 0x2587, Char.ofNat 0x2588]

/-- The full block U+2588, `*kBlocks.rbegin()`. -/
def kFull : Char := Char.ofNat 0x2588

/-- The value of `tick` in `gen_bar`, after the guard on `total`: both arguments of
`std::min` are computed in `size_t`, the result is narrowed to `int`. -/
def gen_bar_tick (width value total : Int) : Int :=
  toInt32 (min
    ((kBlocks.length * toSizeT width % 2 ^ 64 * toSizeT value % 2 ^ 64) / toSizeT total)
    ((kBlocks.length * toSizeT width % 2 ^ 64 + 2 ^ 64 - 1) % 2 ^ 64) : Nat)

/-- Models `gen_bar` (lines 75-95); one `Char` per appended glyph. -/
def gen_bar (width value total : Int) : Str :=
  let total := if total = 0 then 1 else total
  let tick : Int := gen_bar_tick width value total
  let div : Int := toInt32 (toSizeT tick / kBlocks.length : Nat)
  let rem : Int := toInt32 (toSizeT tick % kBlocks.length : Nat)
  let bar : Str := List.replicate (toSizeT div) (kBlocks.getLastD ' ')
  let i : Nat := toSizeT div
  let bar := bar ++ [kBlocks.getD rem.toNat ' ']
  let i := (i + 1) % 2 ^ 64
  bar ++ List.replicate (toSizeT width - i) (kBlocks.headD ' ')

/-- Models `gen_vertical_bar` (lines 97-104). -/
def gen_vertical_bar (value total : Int) : Str :=
  let total := if total = 0 then 1 else total
  let idx : Int := toInt32 (min
    ((kVBlocks.length * toSizeT value % 2 ^ 64) / toSizeT total)
    (kVBlocks.length - 1) : Nat)
  [kVBlocks.getD idx.toNat ' ']

/-! ## `Stat::UpdateCPU` (lines 170-205) -/

/-- The four tick fields read from one `cpu` line of `/proc/stat`. -/
structure CpuLine where
  user_time : Int
  nice_time : Int
  system_time : Int
  idle_time : Int

/-- The vector `busy_times` built by the reading loop. -/
def busyTimes (ls : List CpuLine) : List Int :=
  ls.map (fun l => l.user_time + l.nice_time + l.system_time)

/-- The vector `idle_times` built by the reading loop. -/
def idleTimes (ls : List CpuLine) : List Int :=
  ls.map (fun l => l.idle_time)

/-- Models `std::vector::resize(n, v)`. -/
def resize (xs : List ℚ) (n : Nat) (v : ℚ) : List ℚ :=
  xs.take n ++ List.replicate (n - xs.length) v

/-- The expression assigned to `usage` (line 199). -/
def usageOf (busy_diff total_diff : Int) : ℚ :=
  if total_diff = 0 then 0 else (busy_diff : ℚ) / (total_diff : ℚ) * 100

/-- The loop body (lines 195-203) at index `i`; `none` when a vector is indexed out
of its bounds. -/
def UpdateCPUStep (busy_times idle_times : List Int) (s : Stat) (i : Nat) : Option Stat := do
  let b ← busy_times[i]?
  let lb ← s.last_cpu_busy_times_[i]?
  let busy_diff := b - lb
  let d ← idle_times[i]?
  let ld ← s.last_cpu_idle_times_[i]?
  let idle_diff := d - ld
  let total_diff := busy_diff + idle_diff
  let usage := usageOf busy_diff total_diff
  if i < s.cpu_usages_.length then
    some { s with
      cpu_usages_ := s.cpu_usages_.set i usage
      last_cpu_busy_times_ := s.last_cpu_busy_times_.set i b
      last_cpu_idle_times_ := s.last_cpu_idle_times_.set i d }
  else none

/-- Lines 186-204 of `Stat::UpdateCPU`, from the vectors `busy_times` and `idle_times`. -/
def UpdateCPUFrom (s : Stat) (busy_times idle_times : List Int) : Option Stat :=
  if s.last_cpu_busy_times_.isEmpty then
    some { s with
      last_cpu_busy_times_ := busy_times
      last_cpu_idle_times_ := idle_times
      cpu_usages_ := resize s.cpu_usages_ busy_times.length 0 }
  else
    (List.range busy_times.length).foldlM (UpdateCPUStep busy_times idle_times) s

/-- Models `Stat::UpdateCPU` over the `cpu` lines of `/proc/stat`. -/
def UpdateCPU (s : Stat) (ls : List CpuLine) : Option Stat :=
  UpdateCPUFrom s (busyTimes ls) (idleTimes ls)

/-- A run of `UpdateCPUFrom` calls, one per sample `(busy_times, idle_times)`. -/
def UpdateCPURun (s : Stat) : List (List Int × List Int) → Option Stat
  | [] => some s
  | smp :: rest =>
    match UpdateCPUFrom s smp.1 smp.2 with
    | some s1 => UpdateCPURun s1 rest
    | none => none

/-! ## Widgets (lines 216-253) -/

/-- Subtraction of two `size_t` values. -/
def subSizeT (a b : Nat) : Nat :=
  (a + 2 ^ 64 - b % 2 ^ 64) % 2 ^ 64

/-- Models `Stat::DumpUptime`: the text appended to the stream. -/
def DumpUptime (s : Stat) : Str :=
  human_readable_time s.uptime_

/-- Models `Stat::DumpMemory`. -/
def DumpMemory (F : Fmt) (s : Stat) (bar_width : Int) : Str :=
  to_percentage F (subSizeT s.mem_total_ s.mem_available_ : Nat) (s.mem_total_ : Nat)
    ++ "[".toList
    ++ gen_bar bar_width (toInt32 (subSizeT s.mem_total_ s.mem_available_ : Nat))
        (toInt32 (s.mem_total_ : Nat))
    ++ "]".toList

/-- Models `Stat::DumpSwap`. -/
def DumpSwap (F : Fmt) (s : Stat) (bar_width : Int) : Str :=
  to_percentage F (subSizeT s.swap_total_ s.swap_free_ : Nat) (s.swap_total_ : Nat)
    ++ "[".toList
    ++ gen_bar bar_width (toInt32 (subSizeT s.swap_total_ s.swap_free_ : Nat))
        (toInt32 (s.swap_total_ : Nat))
    ++ "]".toList

/-- The glyph `Stat::DumpCPU` emits for one core whose stored utilization is `usage`:
the call `gen_vertical_bar(cpu_usages_[i], 100)`, whose first parameter is an `int`. -/
def cpuGlyph (usage : ℚ) : Str :=
  gen_vertical_bar (truncToInt usage) 100

/-- Models `Stat::DumpCPU`; `none` when `cpu_usages_[0]` does not exist. -/
def DumpCPU (F : Fmt) (s : Stat) (bar_width : Int) : Option Str :=
  match s.cpu_usages_ with
  | [] => none
  | u0 :: others =>
    some (to_percentage F u0 100
      ++ "[".toList ++ gen_bar bar_width (truncToInt u0) 100 ++ "]".toList
      ++ "[".toList ++ (others.map cpuGlyph).flatten ++ "]".toList)

/-- Models `Stat::DumpLoadAverage`. -/
def DumpLoadAverage (F : Fmt) (s : Stat) : Str :=
  F.dbl s.load1_ ++ " ".toList ++ F.dbl s.load5_ ++ " ".toList ++ F.dbl s.load15_
    ++ " ".toList ++ s.procs_

/-- Models `Stat::DumpWallClock`. -/
def DumpWallClock (F : Fmt) (s : Stat) : Str :=
  F.put_time s.wall_clock_

/-! ## `Stat::DumpTMUX` (lines 255-299) -/

/-- The built-in format string. -/
def kFormatString : Str :=
  ("#[fg=colour4]\x7buptime\x7d " ++ "#[fg=colour2]\x7bload\x7d" ++ "#[fg=colour3]\x7bmemory\x7d"
    ++ "#[fg=colour5]\x7bswap\x7d" ++ "#[fg=colour6]\x7bcpu\x7d "
    ++ "#[fg=colour7]\x7bwall_clock\x7d").toList

/-- The opening brace. -/
def kOpen : Char := Char.ofNat 0x7b

/-- The closing brace. -/
def kClose : Char := Char.ofNat 0x7d

/-- Models `std::string::find(c, start)`. -/
def find (str : Str) (c : Char) (start : Nat) : Option Nat :=
  let i := (str.drop start).indexOf c
  if i < (str.drop start).length then some (start + i) else none

/-- How the rendering ended. -/
inductive Status where
  | finished
  | unmatchedBrace
  | unknownKey (key : Str)
  | badIndex
  | outOfFuel
  deriving DecidableEq

/-- What a rendering produced: the text written to `os`, the keys compared against the
widget names (in order), and how it ended. -/
structure Rendered where
  os : Str
  keys : List Str
  status : Status
  deriving DecidableEq

/-- The `if`/`else if` chain on `key` (lines 281-296): `none` for a key outside the set,
`some none` when the widget reads outside `cpu_usages_`. -/
def widget (F : Fmt) (s : Stat) (key : Str) : Option (Option Str) :=
  if key = "uptime".toList then some (some (DumpUptime s))
  else if key = "load".toList then some (some (DumpLoadAverage F s))
  else if key = "memory".toList then some (some (DumpMemory F s 5))
  else if key = "swap".toList then some (some (DumpSwap F s 5))
  else if key = "cpu".toList then some (DumpCPU F s 5)
  else if key = "wall_clock".toList then some (some (DumpWallClock F s))
  else none

/-- The `for` loop of lines 265-298 on the format string `fmt`, from the loop state
`last_pos`, with what has been written and looked up so far; one unit of fuel per
iteration. -/
def DumpTMUXLoop (F : Fmt) (s : Stat) (fmt : Str) :
    Nat → Nat → Str → List Str → Rendered
  | 0, _, os, keys => { os := os, keys := keys, status := .outOfFuel }
  | fuel + 1, last_pos, os, keys =>
    match find fmt kOpen last_pos with
    | none => { os := os, keys := keys, status := .finished }
    | some pos =>
      if pos + 1 < fmt.length ∧ fmt[pos + 1]? = some kOpen then
        DumpTMUXLoop F s fmt fuel (pos + 2)
          (os ++ substr fmt last_pos (pos - last_pos + 1)) keys
      else
        match find fmt kClose pos with
        | none => { os := os, keys := keys, status := .unmatchedBrace }
        | some end_pos =>
          let os := os ++ substr fmt last_pos (pos - last_pos)
          let key := substr fmt (pos + 1) (end_pos - pos - 1)
          match widget F s key with
          | none => { os := os, keys := keys ++ [key], status := .unknownKey key }
          | some none => { os := os, keys := keys ++ [key], status := .badIndex }
          | some (some text) =>
            DumpTMUXLoop F s fmt fuel (end_pos + 1) (os ++ text) (keys ++ [key])

/-- The scanning loop of `Stat::DumpTMUX` as a function of the format string.  Every
iteration moves `last_pos` forward, so `fmt.length + 1` iterations are never used up
(`render_terminates`). -/
def render (F : Fmt) (s : Stat) (fmt : Str) : Rendered :=
  DumpTMUXLoop F s fmt (fmt.length + 1) 0 [] []

/-- Models `Stat::DumpTMUX`. -/
def DumpTMUX (F : Fmt) (s : Stat) : Rendered :=
  render F s kFormatString

/-! ## `OutputStream` and the publish cycle of `main` (lines 349-389, 434-443) -/

/-- A file system: the content stored at each path, if any. -/
abbrev FS := Str → Option Str

/-- The operations one cycle applies to the file system. -/
inductive FsOp where
  /-- Models `std::ofstream(path)`: create or truncate. -/
  | openTrunc (path : Str)
  /-- Characters reaching the file at `path`. -/
  | append (path : Str) (text : Str)
  /-- Models `std::rename(src, dst)`. -/
  | rename (src dst : Str)

/-- Effect of one operation. -/
def FsOp.apply (fs : FS) : FsOp → FS
  | .openTrunc path => fun q => if q = path then some [] else fs q
  | .append path text => fun q =>
      if q = path then some ((fs path).getD [] ++ text) else fs q
  | .rename src dst => fun q =>
      if q = dst then fs src else if q = src then none else fs q

/-- The file-system states reached while the operations run, the initial one first. -/
def trace (fs : FS) : List FsOp → List FS
  | [] => [fs]
  | op :: ops => fs :: trace (op.apply fs) ops

/-- The operations of one cycle of `main` for the destination `filename`, where the
rendering writes `chunks` one after the other: the constructor opens
`filename + ".tmp"`, the writes go to that stream, `flush` renames it over `filename`.
For `""` and `"-"` the stream is `std::cout` and no file is touched. -/
def publishOps (filename : Str) (chunks : List Str) : List FsOp :=
  if filename.isEmpty || filename == "-".toList then []
  else
    let tmp_filename := filename ++ ".tmp".toList
    [FsOp.openTrunc tmp_filename] ++ chunks.map (FsOp.append tmp_filename)
      ++ [FsOp.rename tmp_filename filename]


/-! ## Reference renderings, after the words of the specification -/

/-- The horizontal bar as the specification words it, for a ramp of resolution `levels`
per cell: `tick = min(width*levels*value/total, width*levels-1)` with a zero total taken
as 1, then `tick/levels` full blocks, the ramp glyph of level `tick mod levels`, and
spaces up to `width`. -/
def gen_bar_spec (levels width value total : Nat) : Str :=
  let total := if total = 0 then 1 else total
  let tick := min (width * levels * value / total) (width * levels - 1)
  List.replicate (tick / levels) kFull ++ [kBlocks.getD (tick % levels) ' ']
    ++ List.replicate (width - (tick / levels + 1)) ' '

/-- The glyph index as the specification words it: `floor(9 * u / 100)` on the fractional
utilization, clamped to the top level 8. -/
def cpuGlyphIndex_spec (u : ℚ) : Nat :=
  min ⌊9 * u / 100⌋.toNat 8

/-! ## Sample values -/

/-- A sample formatting: every number is shown by its integer part. -/
def Fmt.plain : Fmt :=
  { fixed1 := fun q => setw 5 ' ' (showInt (truncToInt q))
    dbl := fun q => showInt (truncToInt q)
    put_time := fun t => showInt t }

/-- A sample file system: one file, `status`, holding `old`. -/
def FS.sample : FS :=
  fun q => if q = "status".toList then some "old".toList else none

/-- A sample snapshot with three CPU entries. -/
def Stat.sample : Stat :=
  { Stat.zero with
    mem_total_ := 16384, mem_available_ := 4096, swap_total_ := 2048, swap_free_ := 2048,
    last_cpu_busy_times_ := [100, 50, 50], last_cpu_idle_times_ := [100, 50, 50],
    cpu_usages_ := [0, 0, 0] }

/-! ## The state of the `UpdateCPU` loop after `k` iterations -/

/-- The utilization the loop body computes at index `i` from the state `s` at loop entry. -/
def usageAt (busy_times idle_times : List Int) (s : Stat) (i : Nat) : ℚ :=
  usageOf (busy_times.getD i 0 - s.last_cpu_busy_times_.getD i 0)
    ((busy_times.getD i 0 - s.last_cpu_busy_times_.getD i 0)
      + (idle_times.getD i 0 - s.last_cpu_idle_times_.getD i 0))

/-- The object after the first `k` iterations of the loop. -/
def afterLoop (busy_times idle_times : List Int) (s : Stat) (k : Nat) : Stat :=
  { s with
    cpu_usages_ := (List.range k).map (usageAt busy_times idle_times s) ++ s.cpu_usages_.drop k
    last_cpu_busy_times_ := busy_times.take k ++ s.last_cpu_busy_times_.drop k
    last_cpu_idle_times_ := idle_times.take k ++ s.last_cpu_idle_times_.drop k }

/-! # Theorems -/

set_option maxRecDepth 100000

/-! ## Searching -/

theorem find_shift (P X : Str) (c : Char) (i : Nat) :
    find (P ++ X) c (P.length + i) = (find X c i).map (fun j => P.length + j) := by
  unfold find
  simp only [List.drop_append]
  split <;> simp [Nat.add_assoc]

theorem find_first (A B : Str) (c : Char) (h : c ∉ A) :
    find (A ++ c :: B) c 0 = some A.length := by
  unfold find
  simp [List.indexOf_append_of_not_mem h]

theorem find_none (X : Str) (c : Char) (i : Nat) (h : c ∉ X) : find X c i = none := by
  unfold find
  have h2 : c ∉ X.drop i := fun hm => h (List.mem_of_mem_drop hm)
  simp [List.indexOf_of_not_mem h2]

theorem find_bounds (X : Str) (c : Char) (i pos : Nat) (h : find X c i = some pos) :
    i ≤ pos ∧ pos < X.length := by
  unfold find at h
  simp only at h
  split at h
  · rename_i hlt
    simp only [Option.some.injEq] at h
    simp only [List.length_drop] at hlt
    omega
  · cases h


theorem substr_shift (P X : Str) (a n : Nat) :
    substr (P ++ X) (P.length + a) n = substr X a n := by
  simp [substr, List.drop_append]

theorem getElem?_shift (P X : Str) (a : Nat) : (P ++ X)[P.length + a]? = X[a]? := by
  rw [List.getElem?_append_right (by omega)]
  congr 1
  omega

/-- The loop only looks at the format string from `last_pos` on. -/
theorem loop_shift (F : Fmt) (s : Stat) (P R : Str) :
    ∀ (fuel lp : Nat) (os : Str) (keys : List Str),
      DumpTMUXLoop F s (P ++ R) fuel (P.length + lp) os keys
        = DumpTMUXLoop F s R fuel lp os keys := by
  intro fuel
  induction fuel with
  | zero => intro lp os keys; rfl
  | succ f ih =>
    intro lp os keys
    simp only [DumpTMUXLoop]
    rw [find_shift]
    cases h : find R kOpen lp with
    | none => simp
    | some pos =>
      simp only [Option.map_some']
      have e1 : P.length + pos + 1 = P.length + (pos + 1) := by omega
      have e2 : P.length + pos + 2 = P.length + (pos + 2) := by omega
      have e3 : P.length + pos - (P.length + lp) = pos - lp := by omega
      have e4 : (P.length + pos + 1 < (P ++ R).length ∧ (P ++ R)[P.length + pos + 1]? = some kOpen)
          ↔ (pos + 1 < R.length ∧ R[pos + 1]? = some kOpen) := by
        rw [e1, getElem?_shift, List.length_append]
        constructor
        · rintro ⟨a, b⟩; exact ⟨by omega, b⟩
        · rintro ⟨a, b⟩; exact ⟨by omega, b⟩
      by_cases hc : pos + 1 < R.length ∧ R[pos + 1]? = some kOpen
      · rw [if_pos (e4.mpr hc), if_pos hc, e2, ih, e3, substr_shift]
      · rw [if_neg (fun h => hc (e4.mp h)), if_neg hc, find_shift]
        cases h2 : find R kClose pos with
        | none => simp
        | some end_pos =>
          simp only [Option.map_some']
          have e5 : P.length + end_pos - (P.length + pos) - 1 = end_pos - pos - 1 := by omega
          have e6 : P.length + end_pos + 1 = P.length + (end_pos + 1) := by omega
          rw [e1, substr_shift, e5, e6, e3, substr_shift]
          cases h3 : widget F s (substr R (pos + 1) (end_pos - pos - 1)) with
          | none => rfl
          | some w =>
            cases w with
            | none => rfl
            | some text => exact ih _ _ _

/-- Text already written stays in front of what the loop writes. -/
theorem loop_os_front (F : Fmt) (s : Stat) (fmt pre : Str) :
    ∀ (fuel lp : Nat) (os : Str) (keys : List Str),
      DumpTMUXLoop F s fmt fuel lp (pre ++ os) keys
        = { os := pre ++ (DumpTMUXLoop F s fmt fuel lp os keys).os
            keys := (DumpTMUXLoop F s fmt fuel lp os keys).keys
            status := (DumpTMUXLoop F s fmt fuel lp os keys).status } := by
  intro fuel
  induction fuel with
  | zero => intro lp os keys; rfl
  | succ f ih =>
    intro lp os keys
    simp only [DumpTMUXLoop]
    cases h : find fmt kOpen lp with
    | none => rfl
    | some pos =>
      simp only
      split
      · rw [List.append_assoc, ih]
      · cases h2 : find fmt kClose pos with
        | none => rfl
        | some end_pos =>
          simp only
          cases h3 : widget F s (substr fmt (pos + 1) (end_pos - pos - 1)) with
          | none => simp
          | some w =>
            cases w with
            | none => simp
            | some text => simp only [List.append_assoc]; rw [ih]

/-- Any amount of fuel that covers the rest of the format string gives the same result. -/
theorem loop_fuel (F : Fmt) (s : Stat) (fmt : Str) :
    ∀ (f1 f2 lp : Nat) (os : Str) (keys : List Str),
      lp ≤ fmt.length → fmt.length + 1 ≤ f1 + lp → fmt.length + 1 ≤ f2 + lp →
      DumpTMUXLoop F s fmt f1 lp os keys = DumpTMUXLoop F s fmt f2 lp os keys := by
  intro f1
  induction f1 with
  | zero => intro f2 lp os keys h1 h2 h3; omega
  | succ f ih =>
    intro f2 lp os keys h1 h2 h3
    cases f2 with
    | zero => omega
    | succ g =>
      simp only [DumpTMUXLoop]
      cases h : find fmt kOpen lp with
      | none => rfl
      | some pos =>
        have hb := find_bounds fmt kOpen lp pos h
        simp only
        split
        · rename_i hc
          exact ih g (pos + 2) _ _ (by omega) (by omega) (by omega)
        · cases h2 : find fmt kClose pos with
          | none => rfl
          | some end_pos =>
            have hb2 := find_bounds fmt kClose pos end_pos h2
            simp only
            cases h3 : widget F s (substr fmt (pos + 1) (end_pos - pos - 1)) with
            | none => rfl
            | some w =>
              cases w with
              | none => rfl
              | some text =>
                exact ih g (end_pos + 1) _ _ (by omega) (by omega) (by omega)

/-- The fuel given by `render` is never used up. -/
theorem loop_terminates (F : Fmt) (s : Stat) (fmt : Str) :
    ∀ (fuel lp : Nat) (os : Str) (keys : List Str),
      lp ≤ fmt.length → fmt.length + 1 ≤ fuel + lp →
      (DumpTMUXLoop F s fmt fuel lp os keys).status ≠ Status.outOfFuel := by
  intro fuel
  induction fuel with
  | zero => intro lp os keys h1 h2; omega
  | succ f ih =>
    intro lp os keys h1 h2
    simp only [DumpTMUXLoop]
    cases h : find fmt kOpen lp with
    | none => simp
    | some pos =>
      have hb := find_bounds fmt kOpen lp pos h
      simp only
      split
      · exact ih (pos + 2) _ _ (by omega) (by omega)
      · cases h2 : find fmt kClose pos with
        | none => simp
        | some end_pos =>
          have hb2 := find_bounds fmt kClose pos end_pos h2
          simp only
          cases h3 : widget F s (substr fmt (pos + 1) (end_pos - pos - 1)) with
          | none => simp
          | some w =>
            cases w with
            | none => simp
            | some text => exact ih (end_pos + 1) _ _ (by omega) (by omega)


/-- The rendering of any format string ends within the fuel `render` provides. -/
theorem render_terminates (F : Fmt) (s : Stat) (fmt : Str) :
    (render F s fmt).status ≠ Status.outOfFuel :=
  loop_terminates F s fmt (fmt.length + 1) 0 [] [] (Nat.zero_le _) (by omega)

/-- A format string without an opening brace renders as the empty text. -/
theorem render_no_brace (F : Fmt) (s : Stat) (fmt : Str) (h : kOpen ∉ fmt) :
    render F s fmt = { os := [], keys := [], status := Status.finished } := by
  unfold render
  simp only [DumpTMUXLoop]
  rw [find_none fmt kOpen 0 h]

/-! ## The template engine: claims -/

/-- C3 (the code departs from the claim): nothing is written after the loop.  A format
string without an opening brace renders as the empty text, and the text after the last
placeholder is dropped. -/
theorem C3_tail_not_written (F : Fmt) (s : Stat) :
    render F s "abc".toList = { os := [], keys := [], status := Status.finished }
    ∧ render F s "up \x7buptime\x7d end".toList
        = { os := "up ".toList ++ DumpUptime s, keys := ["uptime".toList],
            status := Status.finished } := by
  constructor <;> rfl

/-- The keys the dispatch of `Stat::DumpTMUX` knows. -/
theorem widget_none (F : Fmt) (s : Stat) (k : Str)
    (h1 : k ≠ "uptime".toList) (h2 : k ≠ "load".toList) (h3 : k ≠ "memory".toList)
    (h4 : k ≠ "swap".toList) (h5 : k ≠ "cpu".toList) (h6 : k ≠ "wall_clock".toList) :
    widget F s k = none := by
  unfold widget
  rw [if_neg h1, if_neg h2, if_neg h3, if_neg h4, if_neg h5, if_neg h6]

/-- C10: a format string `L ++ "\x7b" ++ k ++ "\x7d" ++ R`, with no opening brace in `L`, no
closing brace in `k`, `k` not starting with an opening brace and `k` none of the six
widget names, stops with the unknown-key error for `k`; the text written is exactly
`L`, and `k` is the only key looked up. -/
theorem C10_unknown_key (F : Fmt) (s : Stat) (L k R : Str)
    (hL : kOpen ∉ L) (hk : kClose ∉ k) (hk0 : k.head? ≠ some kOpen)
    (h1 : k ≠ "uptime".toList) (h2 : k ≠ "load".toList) (h3 : k ≠ "memory".toList)
    (h4 : k ≠ "swap".toList) (h5 : k ≠ "cpu".toList) (h6 : k ≠ "wall_clock".toList) :
    render F s (L ++ [kOpen] ++ k ++ [kClose] ++ R)
      = { os := L, keys := [k], status := Status.unknownKey k } := by
  have hfmt : L ++ [kOpen] ++ k ++ [kClose] ++ R = L ++ kOpen :: (k ++ kClose :: R) := by simp
  rw [hfmt]
  unfold render
  simp only [DumpTMUXLoop]
  rw [find_first L _ kOpen hL]
  simp only
  have hnext : ¬ (L.length + 1 < (L ++ kOpen :: (k ++ kClose :: R)).length
      ∧ (L ++ kOpen :: (k ++ kClose :: R))[L.length + 1]? = some kOpen) := by
    rintro ⟨-, hc⟩
    rw [getElem?_shift] at hc
    cases k with
    | nil => simp [kOpen, kClose] at hc
    | cons a t => simp at hc; simp [hc] at hk0
  rw [if_neg hnext]
  have hclose : find (L ++ kOpen :: (k ++ kClose :: R)) kClose L.length
      = some (L.length + (1 + k.length)) := by
    have := find_shift L (kOpen :: (k ++ kClose :: R)) kClose 0
    rw [Nat.add_zero] at this
    rw [this]
    have h7 : kOpen :: (k ++ kClose :: R) = (kOpen :: k) ++ kClose :: R := by simp
    have h8 : kClose ∉ kOpen :: k := by
      simp only [List.mem_cons, not_or]
      exact ⟨by decide, hk⟩
    rw [h7, find_first (kOpen :: k) R kClose h8]
    simp [Nat.add_comm]
  rw [hclose]
  simp only
  have hkey : substr (L ++ kOpen :: (k ++ kClose :: R)) (L.length + 1)
      (L.length + (1 + k.length) - L.length - 1) = k := by
    rw [substr_shift]
    have : L.length + (1 + k.length) - L.length - 1 = k.length := by omega
    rw [this]
    simp [substr]
  rw [hkey, widget_none F s k h1 h2 h3 h4 h5 h6]
  simp [substr]


/-- One iteration of the loop at an escaped brace. -/
theorem loop_escape_step (F : Fmt) (s : Stat) (fmt : Str) (fuel lp pos : Nat) (os : Str)
    (keys : List Str) (h1 : find fmt kOpen lp = some pos)
    (h2 : pos + 1 < fmt.length ∧ fmt[pos + 1]? = some kOpen) :
    DumpTMUXLoop F s fmt (fuel + 1) lp os keys
      = DumpTMUXLoop F s fmt fuel (pos + 2) (os ++ substr fmt lp (pos - lp + 1)) keys := by
  simp only [DumpTMUXLoop, h1]
  rw [if_pos h2]

/-- C11: in a format string `L ++ "\x7b\x7b" ++ R` with no opening brace in `L`, the
rendering writes `L` and one opening brace, looks up no key for it, and goes on exactly
as the rendering of `R` alone: same further text, same keys, same end. -/
theorem C11_escaped_brace (F : Fmt) (s : Stat) (L R : Str) (hL : kOpen ∉ L) :
    render F s (L ++ [kOpen, kOpen] ++ R)
      = { os := L ++ [kOpen] ++ (render F s R).os
          keys := (render F s R).keys
          status := (render F s R).status } := by
  have hfmt : L ++ [kOpen, kOpen] ++ R = L ++ kOpen :: (kOpen :: R) := by simp
  have hnext : L.length + 1 < (L ++ kOpen :: (kOpen :: R)).length
      ∧ (L ++ kOpen :: (kOpen :: R))[L.length + 1]? = some kOpen := by
    constructor
    · simp only [List.length_append, List.length_cons]; omega
    · rw [getElem?_shift]; simp
  have hsub : substr (L ++ kOpen :: (kOpen :: R)) 0 (L.length - 0 + 1) = L ++ [kOpen] := by
    simp [substr, List.take_append_eq_append_take]
  have hP : L ++ kOpen :: (kOpen :: R) = (L ++ [kOpen, kOpen]) ++ R := by simp
  have hpos : L.length + 2 = (L ++ [kOpen, kOpen]).length + 0 := by simp
  have hnil : ([] : Str) ++ (L ++ [kOpen]) = (L ++ [kOpen]) ++ [] := by simp
  have hstep : render F s (L ++ [kOpen, kOpen] ++ R)
      = DumpTMUXLoop F s R ((L ++ [kOpen, kOpen] ++ R).length) 0 ((L ++ [kOpen]) ++ []) [] := by
    unfold render
    rw [hfmt, loop_escape_step F s _ _ 0 L.length [] [] (find_first L _ kOpen hL) hnext,
      hsub, hnil, hP, hpos, loop_shift F s (L ++ [kOpen, kOpen]) R]
  rw [hstep, loop_os_front F s R (L ++ [kOpen])]
  have hfuel := loop_fuel F s R ((L ++ [kOpen, kOpen] ++ R).length) (R.length + 1) 0 [] []
    (by omega) (by simp only [List.length_append, List.length_cons, List.length_nil]; omega)
    (by omega)
  rw [hfuel]
  rfl

/-- C12: a format string `L ++ "\x7b" ++ R` with no opening brace in `L`, `R` not starting
with an opening brace and no closing brace in `R` ends with the unmatched-brace error;
no key is looked up (and nothing is written). -/
theorem C12_unmatched_brace (F : Fmt) (s : Stat) (L R : Str)
    (hL : kOpen ∉ L) (hR0 : R.head? ≠ some kOpen) (hR : kClose ∉ R) :
    render F s (L ++ [kOpen] ++ R)
      = { os := [], keys := [], status := Status.unmatchedBrace } := by
  have hfmt : L ++ [kOpen] ++ R = L ++ kOpen :: R := by simp
  rw [hfmt]
  unfold render
  simp only [DumpTMUXLoop]
  rw [find_first L _ kOpen hL]
  simp only
  have hnext : ¬ (L.length + 1 < (L ++ kOpen :: R).length
      ∧ (L ++ kOpen :: R)[L.length + 1]? = some kOpen) := by
    rintro ⟨-, hc⟩
    rw [getElem?_shift] at hc
    cases R with
    | nil => simp at hc
    | cons a t => simp at hc; simp [hc] at hR0
  rw [if_neg hnext]
  have hclose : find (L ++ kOpen :: R) kClose L.length = none := by
    have := find_shift L (kOpen :: R) kClose 0
    rw [Nat.add_zero] at this
    rw [this]
    have h8 : kClose ∉ kOpen :: R := by
      simp only [List.mem_cons, not_or]
      exact ⟨by decide, hR⟩
    rw [find_none _ _ _ h8]
    rfl
  rw [hclose]

/-- C20: for a snapshot with at least one CPU entry, the built-in format string renders
without error, and the text is the literal pieces of the format string with the six
widgets in between, nothing lost. -/
theorem C20_builtin_format (F : Fmt) (s : Stat) (h : s.cpu_usages_ ≠ []) :
    ∃ cpu, DumpCPU F s 5 = some cpu ∧
      DumpTMUX F s
        = { os := "#[fg=colour4]".toList ++ DumpUptime s
              ++ " #[fg=colour2]".toList ++ DumpLoadAverage F s
              ++ "#[fg=colour3]".toList ++ DumpMemory F s 5
              ++ "#[fg=colour5]".toList ++ DumpSwap F s 5
              ++ "#[fg=colour6]".toList ++ cpu
              ++ " #[fg=colour7]".toList ++ DumpWallClock F s
            keys := ["uptime".toList, "load".toList, "memory".toList, "swap".toList,
              "cpu".toList, "wall_clock".toList]
            status := Status.finished } := by
  obtain ⟨up, mt, ma, st, sf, lb, li, cu, l1, l5, l15, pr, wc⟩ := s
  cases cu with
  | nil => exact absurd rfl h
  | cons u0 others => exact ⟨_, rfl, rfl⟩

/-- C10 at `"A\x7bbogus\x7dB"`: the text written is `"A"`, then the unknown-key error. -/
theorem C10_unknown_key_witness :
    render Fmt.plain Stat.zero ("A".toList ++ [kOpen] ++ "bogus".toList ++ [kClose] ++ "B".toList)
      = { os := "A".toList, keys := ["bogus".toList],
          status := Status.unknownKey "bogus".toList } :=
  C10_unknown_key Fmt.plain Stat.zero "A".toList "bogus".toList "B".toList
    (by decide) (by decide) (by decide) (by decide) (by decide) (by decide) (by decide)
    (by decide) (by decide)

/-- C11 at `"a\x7b\x7bb"`. -/
theorem C11_escaped_brace_witness :
    render Fmt.plain Stat.zero ("a".toList ++ [kOpen, kOpen] ++ "b".toList)
      = { os := "a".toList ++ [kOpen] ++ (render Fmt.plain Stat.zero "b".toList).os
          keys := (render Fmt.plain Stat.zero "b".toList).keys
          status := (render Fmt.plain Stat.zero "b".toList).status } :=
  C11_escaped_brace Fmt.plain Stat.zero "a".toList "b".toList (by decide)

/-- C12 at `"a\x7buptime"`. -/
theorem C12_unmatched_brace_witness :
    render Fmt.plain Stat.zero ("a".toList ++ [kOpen] ++ "uptime".toList)
      = { os := [], keys := [], status := Status.unmatchedBrace } :=
  C12_unmatched_brace Fmt.plain Stat.zero "a".toList "uptime".toList
    (by decide) (by decide) (by decide)

/-- C20 at the sample snapshot. -/
theorem C20_builtin_format_witness :
    ∃ cpu, DumpCPU Fmt.plain Stat.sample 5 = some cpu ∧
      DumpTMUX Fmt.plain Stat.sample
        = { os := "#[fg=colour4]".toList ++ DumpUptime Stat.sample
              ++ " #[fg=colour2]".toList ++ DumpLoadAverage Fmt.plain Stat.sample
              ++ "#[fg=colour3]".toList ++ DumpMemory Fmt.plain Stat.sample 5
              ++ "#[fg=colour5]".toList ++ DumpSwap Fmt.plain Stat.sample 5
              ++ "#[fg=colour6]".toList ++ cpu
              ++ " #[fg=colour7]".toList ++ DumpWallClock Fmt.plain Stat.sample
            keys := ["uptime".toList, "load".toList, "memory".toList, "swap".toList,
              "cpu".toList, "wall_clock".toList]
            status := Status.finished } :=
  C20_builtin_format Fmt.plain Stat.sample (List.cons_ne_nil _ _)

/-! ## The `UpdateCPU` loop -/

theorem getElem?_after {α : Type} (pre l : List α) (k : Nat) (hpre : pre.length = k) :
    (pre ++ l.drop k)[k]? = l[k]? := by
  rw [List.getElem?_append_right (by omega)]
  simp [hpre]

theorem set_after {α : Type} (pre l : List α) (k : Nat) (v : α) (hpre : pre.length = k)
    (hk : k < l.length) :
    (pre ++ l.drop k).set k v = (pre ++ [v]) ++ l.drop (k + 1) := by
  rw [List.set_append_right _ _ (by omega), hpre, Nat.sub_self, List.drop_eq_getElem_cons hk,
    List.set_cons_zero, List.append_assoc]
  rfl

theorem take_succ_getD (l : List Int) (k : Nat) (hk : k < l.length) :
    l.take (k + 1) = l.take k ++ [l.getD k 0] := by
  rw [List.take_succ, List.getD_eq_getElem?_getD, List.getElem?_eq_getElem hk]
  rfl

/-- The body at index `k`, run on the state after `k` iterations. -/
theorem UpdateCPUStep_afterLoop (busy_times idle_times : List Int) (s : Stat) (k : Nat)
    (hb : k < busy_times.length) (hi : k < idle_times.length)
    (hlb : k < s.last_cpu_busy_times_.length) (hli : k < s.last_cpu_idle_times_.length)
    (hcu : k < s.cpu_usages_.length) :
    UpdateCPUStep busy_times idle_times (afterLoop busy_times idle_times s k) k
      = some (afterLoop busy_times idle_times s (k + 1)) := by
  have e1 : busy_times[k]? = some (busy_times.getD k 0) := by
    rw [List.getD_eq_getElem?_getD, List.getElem?_eq_getElem hb]; rfl
  have e2 : idle_times[k]? = some (idle_times.getD k 0) := by
    rw [List.getD_eq_getElem?_getD, List.getElem?_eq_getElem hi]; rfl
  have e3 : (afterLoop busy_times idle_times s k).last_cpu_busy_times_[k]?
      = some (s.last_cpu_busy_times_.getD k 0) := by
    unfold afterLoop
    simp only
    rw [getElem?_after _ _ _ (by simp; omega), List.getD_eq_getElem?_getD,
      List.getElem?_eq_getElem hlb]
    rfl
  have e4 : (afterLoop busy_times idle_times s k).last_cpu_idle_times_[k]?
      = some (s.last_cpu_idle_times_.getD k 0) := by
    unfold afterLoop
    simp only
    rw [getElem?_after _ _ _ (by simp; omega), List.getD_eq_getElem?_getD,
      List.getElem?_eq_getElem hli]
    rfl
  have e5 : k < (afterLoop busy_times idle_times s k).cpu_usages_.length := by
    unfold afterLoop
    simp only [List.length_append, List.length_map, List.length_range, List.length_drop]
    omega
  unfold UpdateCPUStep
  rw [e1, e2, e3, e4]
  simp only [Option.bind_eq_bind, Option.some_bind, if_pos e5]
  unfold afterLoop
  simp only [Option.some.injEq]
  rw [set_after _ _ _ _ (by simp) hcu, set_after _ _ _ _ (by simp; omega) hlb,
    set_after _ _ _ _ (by simp; omega) hli, List.range_succ, List.map_append,
    take_succ_getD _ _ hb, take_succ_getD _ _ hi]
  rfl

/-- The loop over the first `k` indices, all of them inside every vector. -/
theorem UpdateCPU_loop (busy_times idle_times : List Int) (s : Stat) :
    ∀ k : Nat, k ≤ busy_times.length → k ≤ idle_times.length →
      k ≤ s.last_cpu_busy_times_.length → k ≤ s.last_cpu_idle_times_.length →
      k ≤ s.cpu_usages_.length →
      (List.range k).foldlM (UpdateCPUStep busy_times idle_times) s
        = some (afterLoop busy_times idle_times s k) := by
  intro k
  induction k with
  | zero =>
    intro _ _ _ _ _
    simp [afterLoop]
  | succ k ih =>
    intro hb hi hlb hli hcu
    rw [List.range_succ, List.foldlM_append, ih (by omega) (by omega) (by omega) (by omega)
      (by omega)]
    simp only [Option.bind_eq_bind, Option.some_bind, List.foldlM_cons, List.foldlM_nil]
    rw [UpdateCPUStep_afterLoop _ _ _ _ (by omega) (by omega) (by omega) (by omega) (by omega)]
    rfl


/-- The whole of lines 186-204 on a state with a non-empty history that covers the sample. -/
theorem UpdateCPUFrom_nonempty (s : Stat) (busy_times idle_times : List Int)
    (hne : s.last_cpu_busy_times_ ≠ [])
    (hi : idle_times.length = busy_times.length)
    (hlb : busy_times.length ≤ s.last_cpu_busy_times_.length)
    (hli : busy_times.length ≤ s.last_cpu_idle_times_.length)
    (hcu : busy_times.length ≤ s.cpu_usages_.length) :
    UpdateCPUFrom s busy_times idle_times
      = some (afterLoop busy_times idle_times s busy_times.length) := by
  unfold UpdateCPUFrom
  have : s.last_cpu_busy_times_.isEmpty = false := by
    cases h : s.last_cpu_busy_times_ with
    | nil => exact absurd h hne
    | cons a t => rfl
  rw [this]
  simp only [Bool.false_eq_true, if_false]
  exact UpdateCPU_loop busy_times idle_times s busy_times.length (le_refl _) (by omega) hlb hli hcu

theorem getD_map_range (f : Nat → ℚ) (n i : Nat) (h : i < n) :
    ((List.range n).map f).getD i 0 = f i := by
  rw [List.getD_eq_getElem?_getD, List.getElem?_map, List.getElem?_range h]
  rfl

theorem usageOf_eq (b t : Int) :
    usageOf b t = if t = 0 then 0 else 100 * (b : ℚ) / (t : ℚ) := by
  unfold usageOf
  split
  · rfl
  · ring

/-- C4: on a state with a non-empty history and a sample with the same number of cores,
`UpdateCPU` stores for every core `i` the value 0 when the total delta is 0 and
`100 * busyDelta / totalDelta` otherwise (exact rational arithmetic). -/
theorem C4_utilization (s : Stat) (busy_times idle_times : List Int)
    (hne : s.last_cpu_busy_times_ ≠ [])
    (hi : idle_times.length = busy_times.length)
    (hlb : s.last_cpu_busy_times_.length = busy_times.length)
    (hli : s.last_cpu_idle_times_.length = busy_times.length)
    (hcu : s.cpu_usages_.length = busy_times.length) :
    ∃ s1, UpdateCPUFrom s busy_times idle_times = some s1 ∧
      s1.cpu_usages_.length = busy_times.length ∧
      ∀ i, i < busy_times.length →
        s1.cpu_usages_.getD i 0 =
          if (busy_times.getD i 0 - s.last_cpu_busy_times_.getD i 0)
              + (idle_times.getD i 0 - s.last_cpu_idle_times_.getD i 0) = 0 then 0
          else 100 * ((busy_times.getD i 0 - s.last_cpu_busy_times_.getD i 0 : Int) : ℚ)
            / (((busy_times.getD i 0 - s.last_cpu_busy_times_.getD i 0)
                + (idle_times.getD i 0 - s.last_cpu_idle_times_.getD i 0) : Int) : ℚ) := by
  refine ⟨_, UpdateCPUFrom_nonempty s busy_times idle_times hne hi (by omega) (by omega)
    (by omega), ?_, ?_⟩
  · simp [afterLoop, hcu]
  · intro i hlt
    have hd : s.cpu_usages_.drop busy_times.length = [] := by
      rw [List.drop_eq_nil_iff]; omega
    simp only [afterLoop, hd, List.append_nil]
    rw [getD_map_range _ _ _ hlt]
    unfold usageAt
    exact usageOf_eq _ _

/-- C4 on the sample of the specification: history busy `[100,50,50]`, idle `[100,50,50]`,
sample busy `[200,100,80]`, idle `[150,70,90]`; core 0 gets 200/3. -/
theorem C4_utilization_witness :
    ∃ s1, UpdateCPUFrom Stat.sample [200, 100, 80] [150, 70, 90] = some s1 ∧
      s1.cpu_usages_.getD 0 0 = 200 / 3 := by
  obtain ⟨s1, h1, -, h3⟩ := C4_utilization Stat.sample [200, 100, 80] [150, 70, 90]
    (List.cons_ne_nil _ _) rfl rfl rfl rfl
  refine ⟨s1, h1, ?_⟩
  rw [h3 0 (by decide)]
  simp [Stat.sample, Stat.zero]
  norm_num

/-- The first call: an empty history is seeded with the sample. -/
theorem UpdateCPUFrom_first (s : Stat) (busy_times idle_times : List Int)
    (h1 : s.last_cpu_busy_times_ = []) (h2 : s.cpu_usages_ = []) :
    UpdateCPUFrom s busy_times idle_times
      = some { s with
          last_cpu_busy_times_ := busy_times
          last_cpu_idle_times_ := idle_times
          cpu_usages_ := List.replicate busy_times.length 0 } := by
  unfold UpdateCPUFrom
  rw [h1, h2]
  simp [resize]

/-- C5: the first call on a fresh state (empty history, empty utilization vector) stores
one zero per core of the sample and seeds the history with the sample. -/
theorem C5_first_call (s : Stat) (busy_times idle_times : List Int)
    (h1 : s.last_cpu_busy_times_ = []) (h2 : s.cpu_usages_ = []) :
    UpdateCPUFrom s busy_times idle_times
      = some { s with
          last_cpu_busy_times_ := busy_times
          last_cpu_idle_times_ := idle_times
          cpu_usages_ := List.replicate busy_times.length 0 } :=
  UpdateCPUFrom_first s busy_times idle_times h1 h2

/-- C5 on a three-core sample. -/
theorem C5_first_call_witness :
    UpdateCPUFrom Stat.zero [100, 50, 50] [100, 50, 50]
      = some { Stat.zero with
          last_cpu_busy_times_ := [100, 50, 50]
          last_cpu_idle_times_ := [100, 50, 50]
          cpu_usages_ := List.replicate 3 0 } :=
  C5_first_call Stat.zero [100, 50, 50] [100, 50, 50] rfl rfl

theorem usageOf_bounds (b d : Int) (hb : 0 ≤ b) (hd : 0 ≤ d) :
    0 ≤ usageOf b (b + d) ∧ usageOf b (b + d) ≤ 100 := by
  unfold usageOf
  split
  · constructor <;> norm_num
  · rename_i hne
    have hpos : (0 : ℚ) < ((b + d : Int) : ℚ) := by
      have : 0 < b + d := by omega
      exact_mod_cast this
    have hbq : (0 : ℚ) ≤ (b : ℚ) := by exact_mod_cast hb
    have hle : (b : ℚ) ≤ ((b + d : Int) : ℚ) := by
      have : b ≤ b + d := by omega
      exact_mod_cast this
    constructor
    · positivity
    · rw [div_mul_eq_mul_div, div_le_iff₀ hpos]
      linarith

/-- C6: when every busy delta and every idle delta is non-negative, every utilization
stored by `UpdateCPU` lies between 0 and 100. -/
theorem C6_utilization_bounds (s : Stat) (busy_times idle_times : List Int)
    (hne : s.last_cpu_busy_times_ ≠ [])
    (hi : idle_times.length = busy_times.length)
    (hlb : s.last_cpu_busy_times_.length = busy_times.length)
    (hli : s.last_cpu_idle_times_.length = busy_times.length)
    (hcu : s.cpu_usages_.length = busy_times.length)
    (hmono : ∀ i, i < busy_times.length →
      0 ≤ busy_times.getD i 0 - s.last_cpu_busy_times_.getD i 0
      ∧ 0 ≤ idle_times.getD i 0 - s.last_cpu_idle_times_.getD i 0) :
    ∃ s1, UpdateCPUFrom s busy_times idle_times = some s1 ∧
      s1.cpu_usages_.length = busy_times.length ∧
      ∀ i, i < busy_times.length →
        0 ≤ s1.cpu_usages_.getD i 0 ∧ s1.cpu_usages_.getD i 0 ≤ 100 := by
  refine ⟨_, UpdateCPUFrom_nonempty s busy_times idle_times hne hi (by omega) (by omega)
    (by omega), ?_, ?_⟩
  · simp [afterLoop, hcu]
  · intro i hlt
    have hd : s.cpu_usages_.drop busy_times.length = [] := by
      rw [List.drop_eq_nil_iff]; omega
    simp only [afterLoop, hd, List.append_nil]
    rw [getD_map_range _ _ _ hlt]
    unfold usageAt
    exact usageOf_bounds _ _ (hmono i hlt).1 (hmono i hlt).2


/-- C6 on the sample of the specification. -/
theorem C6_utilization_bounds_witness :
    ∃ s1, UpdateCPUFrom Stat.sample [200, 100, 80] [150, 70, 90] = some s1 ∧
      s1.cpu_usages_.length = 3 ∧
      ∀ i, i < 3 → 0 ≤ s1.cpu_usages_.getD i 0 ∧ s1.cpu_usages_.getD i 0 ≤ 100 :=
  C6_utilization_bounds Stat.sample [200, 100, 80] [150, 70, 90]
    (List.cons_ne_nil _ _) rfl rfl rfl rfl
    (fun i hi => by
      have h3 : i < 3 := hi
      interval_cases i <;> decide)

/-- C16 as stated fails: with a history of two entries and a sample of one core the call
is defined, and the second history entry keeps its old value. -/
theorem C16_counterexample :
    (UpdateCPUFrom { Stat.zero with
        last_cpu_busy_times_ := [1, 2], last_cpu_idle_times_ := [1, 2], cpu_usages_ := [0, 0] }
      [5] [7]).map (fun s1 => (s1.last_cpu_busy_times_, s1.last_cpu_idle_times_))
      = some ([5, 2], [7, 2])
    ∧ ([5, 2], [7, 2]) ≠ (([5], [7]) : List Int × List Int) := by
  constructor
  · rfl
  · decide

/-- C16, amended: for every state and every sample that has no more cores than the stored
vectors (or any sample when the history is empty), after the call the first entries of
the history are the counters of the sample; the history equals the sample when it was
empty or had the sample's length, and entries beyond the sample keep their values. -/
theorem C16_history (s : Stat) (busy_times idle_times : List Int)
    (hi : idle_times.length = busy_times.length)
    (h : s.last_cpu_busy_times_ = [] ∨
      (busy_times.length ≤ s.last_cpu_busy_times_.length
        ∧ busy_times.length ≤ s.last_cpu_idle_times_.length
        ∧ busy_times.length ≤ s.cpu_usages_.length)) :
    ∃ s1, UpdateCPUFrom s busy_times idle_times = some s1 ∧
      s1.last_cpu_busy_times_.take busy_times.length = busy_times ∧
      s1.last_cpu_idle_times_.take busy_times.length = idle_times ∧
      ((s.last_cpu_busy_times_ = [] ∨
          (s.last_cpu_busy_times_.length = busy_times.length
            ∧ s.last_cpu_idle_times_.length = busy_times.length)) →
        s1.last_cpu_busy_times_ = busy_times ∧ s1.last_cpu_idle_times_ = idle_times) ∧
      (s.last_cpu_busy_times_ ≠ [] →
        s1.last_cpu_busy_times_.drop busy_times.length
            = s.last_cpu_busy_times_.drop busy_times.length
          ∧ s1.last_cpu_idle_times_.drop busy_times.length
            = s.last_cpu_idle_times_.drop busy_times.length) := by
  by_cases hne : s.last_cpu_busy_times_ = []
  · refine ⟨{ s with
        last_cpu_busy_times_ := busy_times
        last_cpu_idle_times_ := idle_times
        cpu_usages_ := resize s.cpu_usages_ busy_times.length 0 }, ?_, ?_, ?_, ?_, ?_⟩
    · unfold UpdateCPUFrom
      rw [hne]
      rfl
    · simp
    · simp [← hi]
    · intro _; exact ⟨rfl, rfl⟩
    · intro hc; exact absurd hne hc
  · have hb : busy_times.length ≤ s.last_cpu_busy_times_.length
        ∧ busy_times.length ≤ s.last_cpu_idle_times_.length
        ∧ busy_times.length ≤ s.cpu_usages_.length := by
      rcases h with h | h
      · exact absurd h hne
      · exact h
    refine ⟨_, UpdateCPUFrom_nonempty s busy_times idle_times hne hi hb.1 hb.2.1 hb.2.2,
      ?_, ?_, ?_, ?_⟩
    · simp [afterLoop, List.take_append_eq_append_take]
    · simp [afterLoop, List.take_append_eq_append_take, ← hi]
    · rintro (h0 | ⟨h1, h2⟩)
      · exact absurd h0 hne
      · have d1 : s.last_cpu_busy_times_.drop busy_times.length = [] := by
          rw [List.drop_eq_nil_iff]; omega
        have d2 : s.last_cpu_idle_times_.drop busy_times.length = [] := by
          rw [List.drop_eq_nil_iff]; omega
        simp only [afterLoop, d1, d2, List.append_nil]
        refine ⟨List.take_length _, ?_⟩
        rw [← hi]
        exact List.take_length _
    · intro _
      simp [afterLoop, List.drop_append_eq_append_drop, ← hi]

/-- C16, amended, on the sample of the specification. -/
theorem C16_history_witness :
    ∃ s1, UpdateCPUFrom Stat.sample [200, 100, 80] [150, 70, 90] = some s1 ∧
      s1.last_cpu_busy_times_ = [200, 100, 80] ∧ s1.last_cpu_idle_times_ = [150, 70, 90] := by
  obtain ⟨s1, h1, -, -, h4, -⟩ := C16_history Stat.sample [200, 100, 80] [150, 70, 90] rfl
    (Or.inr ⟨by decide, by decide, by decide⟩)
  exact ⟨s1, h1, h4 (Or.inr ⟨rfl, rfl⟩)⟩

/-- C18: negative deltas are not clamped.  With previous busy 100, idle 100 and new busy
50, idle 200 the stored utilization is -100, outside the range from 0 to 100. -/
theorem C18_negative_delta :
    (UpdateCPUFrom { Stat.zero with
        last_cpu_busy_times_ := [100], last_cpu_idle_times_ := [100], cpu_usages_ := [0] }
      [50] [200]).map (fun s1 => s1.cpu_usages_) = some [-100]
    ∧ ¬ ((0 : ℚ) ≤ -100 ∧ (-100 : ℚ) ≤ 100) := by
  constructor
  · rw [UpdateCPUFrom_nonempty { Stat.zero with
        last_cpu_busy_times_ := [100], last_cpu_idle_times_ := [100], cpu_usages_ := [0] }
      [50] [200] (List.cons_ne_nil _ _) rfl (by decide) (by decide) (by decide)]
    simp [afterLoop, usageAt, usageOf, Stat.zero, List.range_succ]
  · norm_num


/-- A call on a state whose three vectors have length `n ≥ 1`, with a sample of at most
`n` cores, is defined and keeps the three lengths. -/
theorem UpdateCPUFrom_keeps_lengths (s : Stat) (busy_times idle_times : List Int) (n : Nat)
    (hn : 1 ≤ n)
    (hlb : s.last_cpu_busy_times_.length = n) (hli : s.last_cpu_idle_times_.length = n)
    (hcu : s.cpu_usages_.length = n)
    (hb : busy_times.length ≤ n) (hi : idle_times.length = busy_times.length) :
    ∃ s1, UpdateCPUFrom s busy_times idle_times = some s1 ∧
      s1.last_cpu_busy_times_.length = n ∧ s1.last_cpu_idle_times_.length = n ∧
      s1.cpu_usages_.length = n := by
  have hne : s.last_cpu_busy_times_ ≠ [] := by
    intro h0
    rw [h0] at hlb
    simp at hlb
    omega
  refine ⟨_, UpdateCPUFrom_nonempty s busy_times idle_times hne hi (by omega) (by omega)
    (by omega), ?_, ?_, ?_⟩
  · simp only [afterLoop, List.length_append, List.length_take, List.length_drop]
    omega
  · simp only [afterLoop, List.length_append, List.length_take, List.length_drop]
    omega
  · simp only [afterLoop, List.length_append, List.length_map, List.length_range,
      List.length_drop]
    omega

/-- A run of calls from a state whose three vectors have length `n ≥ 1`. -/
theorem UpdateCPURun_keeps_lengths (n : Nat) (hn : 1 ≤ n) :
    ∀ (samples : List (List Int × List Int)) (s : Stat),
      s.last_cpu_busy_times_.length = n → s.last_cpu_idle_times_.length = n →
      s.cpu_usages_.length = n →
      (∀ smp ∈ samples, smp.1.length ≤ n ∧ smp.2.length = smp.1.length) →
      ∃ s1, UpdateCPURun s samples = some s1 ∧
        s1.last_cpu_busy_times_.length = n ∧ s1.last_cpu_idle_times_.length = n ∧
        s1.cpu_usages_.length = n := by
  intro samples
  induction samples with
  | nil => intro s h1 h2 h3 _; exact ⟨s, rfl, h1, h2, h3⟩
  | cons smp rest ih =>
    intro s h1 h2 h3 hall
    obtain ⟨s1, e, a, b, c⟩ := UpdateCPUFrom_keeps_lengths s smp.1 smp.2 n hn h1 h2 h3
      (hall smp (List.mem_cons_self _ _)).1 (hall smp (List.mem_cons_self _ _)).2
    obtain ⟨s2, e2, r⟩ := ih s1 a b c (fun x hx => hall x (List.mem_cons_of_mem _ hx))
    refine ⟨s2, ?_, r⟩
    simp only [UpdateCPURun, e]
    exact e2

/-- C17: starting from a fresh state, with a first sample of `n ≥ 1` cores and no later
sample of more than `n` cores, every call is defined (every index is in bounds), and
after every call the last-busy, last-idle and utilization vectors have length `n`. -/
theorem C17_vector_lengths (s0 : Stat) (h0 : s0.last_cpu_busy_times_ = [])
    (hu : s0.cpu_usages_ = [])
    (first : List Int × List Int) (rest : List (List Int × List Int)) (n : Nat)
    (hn : 1 ≤ n) (hf1 : first.1.length = n) (hf2 : first.2.length = n)
    (hrest : ∀ smp ∈ rest, smp.1.length ≤ n ∧ smp.2.length = smp.1.length) :
    ∀ k, 1 ≤ k → k ≤ (first :: rest).length →
      ∃ s1, UpdateCPURun s0 ((first :: rest).take k) = some s1 ∧
        s1.last_cpu_busy_times_.length = n ∧ s1.last_cpu_idle_times_.length = n ∧
        s1.cpu_usages_.length = n := by
  intro k hk1 _
  obtain ⟨j, rfl⟩ : ∃ j, k = j + 1 := ⟨k - 1, by omega⟩
  rw [List.take_succ_cons]
  have e := UpdateCPUFrom_first s0 first.1 first.2 h0 hu
  obtain ⟨s2, e2, r⟩ := UpdateCPURun_keeps_lengths n hn (rest.take j)
    { s0 with
      last_cpu_busy_times_ := first.1
      last_cpu_idle_times_ := first.2
      cpu_usages_ := List.replicate first.1.length 0 }
    hf1 hf2 (by simp [hf1])
    (fun x hx => hrest x (List.mem_of_mem_take hx))
  refine ⟨s2, ?_, r⟩
  simp only [UpdateCPURun, e]
  exact e2

/-- C17 on a run of three samples of three, two and three cores. -/
theorem C17_vector_lengths_witness :
    ∃ s1, UpdateCPURun Stat.zero
        (([100, 50, 50], [100, 50, 50])
          :: [(([200, 100], [150, 70]) : List Int × List Int),
              ([300, 150, 90], [250, 90, 95])]) = some s1 ∧
      s1.last_cpu_busy_times_.length = 3 ∧ s1.last_cpu_idle_times_.length = 3 ∧
      s1.cpu_usages_.length = 3 :=
  C17_vector_lengths Stat.zero rfl rfl ([100, 50, 50], [100, 50, 50])
    [([200, 100], [150, 70]), ([300, 150, 90], [250, 90, 95])] 3
    (by decide) rfl rfl (by decide) 3 (by decide) (by decide)


/-! ## `UpdateMemory`: frame -/

/-- What one line may change: a field changes only if the line starts with its name. -/
theorem UpdateMemoryLine_frame (s : Stat) (line : Str) :
    (StartsWith line kMemoryTotal = false → (UpdateMemoryLine s line).stat.mem_total_ = s.mem_total_)
    ∧ (StartsWith line kMemoryAvailable = false →
        (UpdateMemoryLine s line).stat.mem_available_ = s.mem_available_)
    ∧ (StartsWith line kSwapTotal = false →
        (UpdateMemoryLine s line).stat.swap_total_ = s.swap_total_)
    ∧ (StartsWith line kSwapFree = false →
        (UpdateMemoryLine s line).stat.swap_free_ = s.swap_free_) := by
  unfold UpdateMemoryLine
  refine ⟨?_, ?_, ?_, ?_⟩ <;> intro h <;>
    (repeat' split) <;> simp_all [Ended.stat]

/-- No two of the four field names start the same line. -/
theorem field_names_exclusive (line : Str) :
    (StartsWith line kMemoryTotal = true →
      StartsWith line kMemoryAvailable = false ∧ StartsWith line kSwapTotal = false
        ∧ StartsWith line kSwapFree = false)
    ∧ (StartsWith line kMemoryAvailable = true →
      StartsWith line kMemoryTotal = false ∧ StartsWith line kSwapTotal = false
        ∧ StartsWith line kSwapFree = false)
    ∧ (StartsWith line kSwapTotal = true →
      StartsWith line kMemoryTotal = false ∧ StartsWith line kMemoryAvailable = false
        ∧ StartsWith line kSwapFree = false)
    ∧ (StartsWith line kSwapFree = true →
      StartsWith line kMemoryTotal = false ∧ StartsWith line kMemoryAvailable = false
        ∧ StartsWith line kSwapTotal = false) := by
  rcases line with _ | ⟨c1, _ | ⟨c2, _ | ⟨c3, _ | ⟨c4, _ | ⟨c5, t⟩⟩⟩⟩⟩ <;>
    simp [StartsWith, kMemoryTotal, kMemoryAvailable, kSwapTotal, kSwapFree, List.isPrefixOf]
  refine ⟨?_, ?_, ?_, ?_⟩ <;> (rintro rfl rfl rfl rfl rfl -; simp)

/-- A line that does not name a field leaves the field alone, over all the lines. -/
theorem UpdateMemory_frame (lines : List Str) :
    ∀ s : Stat,
    ((∀ line ∈ lines, StartsWith line kMemoryTotal = false) →
        (UpdateMemory s lines).stat.mem_total_ = s.mem_total_)
    ∧ ((∀ line ∈ lines, StartsWith line kMemoryAvailable = false) →
        (UpdateMemory s lines).stat.mem_available_ = s.mem_available_)
    ∧ ((∀ line ∈ lines, StartsWith line kSwapTotal = false) →
        (UpdateMemory s lines).stat.swap_total_ = s.swap_total_)
    ∧ ((∀ line ∈ lines, StartsWith line kSwapFree = false) →
        (UpdateMemory s lines).stat.swap_free_ = s.swap_free_) := by
  induction lines with
  | nil => intro s; exact ⟨fun _ => rfl, fun _ => rfl, fun _ => rfl, fun _ => rfl⟩
  | cons line rest ih =>
    intro s
    have hl := UpdateMemoryLine_frame s line
    simp only [UpdateMemory]
    cases hline : UpdateMemoryLine s line with
    | done s1 =>
      rw [hline] at hl
      simp only [Ended.stat] at hl
      have hr := ih s1
      refine ⟨fun h => ?_, fun h => ?_, fun h => ?_, fun h => ?_⟩
      · rw [hr.1 (fun l hl2 => h l (List.mem_cons_of_mem _ hl2)),
          hl.1 (h line (List.mem_cons_self _ _))]
      · rw [hr.2.1 (fun l hl2 => h l (List.mem_cons_of_mem _ hl2)),
          hl.2.1 (h line (List.mem_cons_self _ _))]
      · rw [hr.2.2.1 (fun l hl2 => h l (List.mem_cons_of_mem _ hl2)),
          hl.2.2.1 (h line (List.mem_cons_self _ _))]
      · rw [hr.2.2.2 (fun l hl2 => h l (List.mem_cons_of_mem _ hl2)),
          hl.2.2.2 (h line (List.mem_cons_self _ _))]
    | thrown s1 =>
      rw [hline] at hl
      simp only [Ended.stat] at hl ⊢
      exact ⟨fun h => hl.1 (h line (List.mem_cons_self _ _)),
        fun h => hl.2.1 (h line (List.mem_cons_self _ _)),
        fun h => hl.2.2.1 (h line (List.mem_cons_self _ _)),
        fun h => hl.2.2.2 (h line (List.mem_cons_self _ _))⟩

/-- C13: `UpdateMemory` leaves each of the four fields at its previous value when no line
starts with the name of the field, and a line that starts with the name of one field
leaves the other three fields as they were (whether or not the call ends normally). -/
theorem C13_memory_frame (s : Stat) (lines : List Str) :
    (((∀ line ∈ lines, StartsWith line kMemoryTotal = false) →
        (UpdateMemory s lines).stat.mem_total_ = s.mem_total_)
    ∧ ((∀ line ∈ lines, StartsWith line kMemoryAvailable = false) →
        (UpdateMemory s lines).stat.mem_available_ = s.mem_available_)
    ∧ ((∀ line ∈ lines, StartsWith line kSwapTotal = false) →
        (UpdateMemory s lines).stat.swap_total_ = s.swap_total_)
    ∧ ((∀ line ∈ lines, StartsWith line kSwapFree = false) →
        (UpdateMemory s lines).stat.swap_free_ = s.swap_free_))
    ∧ ∀ line : Str,
      (StartsWith line kMemoryTotal = true →
        (UpdateMemoryLine s line).stat.mem_available_ = s.mem_available_
        ∧ (UpdateMemoryLine s line).stat.swap_total_ = s.swap_total_
        ∧ (UpdateMemoryLine s line).stat.swap_free_ = s.swap_free_)
      ∧ (StartsWith line kMemoryAvailable = true →
        (UpdateMemoryLine s line).stat.mem_total_ = s.mem_total_
        ∧ (UpdateMemoryLine s line).stat.swap_total_ = s.swap_total_
        ∧ (UpdateMemoryLine s line).stat.swap_free_ = s.swap_free_)
      ∧ (StartsWith line kSwapTotal = true →
        (UpdateMemoryLine s line).stat.mem_total_ = s.mem_total_
        ∧ (UpdateMemoryLine s line).stat.mem_available_ = s.mem_available_
        ∧ (UpdateMemoryLine s line).stat.swap_free_ = s.swap_free_)
      ∧ (StartsWith line kSwapFree = true →
        (UpdateMemoryLine s line).stat.mem_total_ = s.mem_total_
        ∧ (UpdateMemoryLine s line).stat.mem_available_ = s.mem_available_
        ∧ (UpdateMemoryLine s line).stat.swap_total_ = s.swap_total_) := by
  refine ⟨UpdateMemory_frame lines s, fun line => ?_⟩
  have hx := field_names_exclusive line
  have hf := UpdateMemoryLine_frame s line
  refine ⟨fun h => ?_, fun h => ?_, fun h => ?_, fun h => ?_⟩
  · exact ⟨hf.2.1 (hx.1 h).1, hf.2.2.1 (hx.1 h).2.1, hf.2.2.2 (hx.1 h).2.2⟩
  · exact ⟨hf.1 (hx.2.1 h).1, hf.2.2.1 (hx.2.1 h).2.1, hf.2.2.2 (hx.2.1 h).2.2⟩
  · exact ⟨hf.1 (hx.2.2.1 h).1, hf.2.1 (hx.2.2.1 h).2.1, hf.2.2.2 (hx.2.2.1 h).2.2⟩
  · exact ⟨hf.1 (hx.2.2.2 h).1, hf.2.1 (hx.2.2.2 h).2.1, hf.2.2.1 (hx.2.2.2 h).2.2⟩

/-- C13 on two lines: a `MemTotal:` line and an unrelated line leave the swap fields and
`mem_available_` of the sample snapshot unchanged, and the `MemTotal:` line is read. -/
theorem C13_memory_frame_witness :
    (UpdateMemory Stat.sample
        ["MemTotal:       32768 kB".toList, "Cached:  100 kB".toList]).stat.swap_total_ = 2048
    ∧ (UpdateMemoryLine Stat.sample "MemTotal:       32768 kB".toList).stat.swap_free_ = 2048 :=
  ⟨((C13_memory_frame Stat.sample
      ["MemTotal:       32768 kB".toList, "Cached:  100 kB".toList]).1.2.2.1 (by decide)),
   (((C13_memory_frame Stat.sample []).2 "MemTotal:       32768 kB".toList).1 (by decide)).2.2⟩

/-- C14: with a total of 0, `to_percentage` returns the six characters `"  0.0%"`,
whatever the value and whatever the number formatting: no quotient is formed. -/
theorem C14_percentage_zero_total (F : Fmt) (value : ℚ) :
    to_percentage F value 0 = "  0.0%".toList ∧ (to_percentage F value 0).length = 6 := by
  constructor <;> simp [to_percentage]


/-! ## The publish cycle -/

theorem tmp_ne (filename : Str) : filename ++ ".tmp".toList ≠ filename := by
  intro h
  have := congrArg List.length h
  simp at this

theorem getLastD_cons_trace (x d1 d2 : FS) (st : FS) (ops : List FsOp) :
    (x :: trace st ops).getLastD d1 = (trace st ops).getLastD d2 := by
  cases ops <;> simp [trace, List.getLastD]

/-- The writes to the temporary file and the final rename, from a state where the
temporary file holds `acc`. -/
theorem trace_writes (filename tmp : Str) (hne : tmp ≠ filename) :
    ∀ (chunks : List Str) (st : FS) (acc : Str), st tmp = some acc →
      (∀ st1 ∈ trace st (chunks.map (FsOp.append tmp) ++ [FsOp.rename tmp filename]),
        st1 filename = st filename ∨ st1 filename = some (acc ++ chunks.flatten))
      ∧ ((trace st (chunks.map (FsOp.append tmp) ++ [FsOp.rename tmp filename])).getLastD st)
          filename = some (acc ++ chunks.flatten) := by
  intro chunks
  induction chunks with
  | nil =>
    intro st acc hacc
    simp [trace, FsOp.apply, hacc]
  | cons c cs ih =>
    intro st acc hacc
    have h1 : (FsOp.apply st (FsOp.append tmp c)) tmp = some (acc ++ c) := by
      simp [FsOp.apply, hacc]
    have h2 : (FsOp.apply st (FsOp.append tmp c)) filename = st filename := by
      simp [FsOp.apply, Ne.symm hne]
    obtain ⟨ih1, ih2⟩ := ih (FsOp.apply st (FsOp.append tmp c)) (acc ++ c) h1
    simp only [List.map_cons, List.cons_append, trace, List.mem_cons, List.flatten_cons]
    constructor
    · intro st1 hst1
      rcases hst1 with rfl | hst1
      · exact Or.inl rfl
      · rcases ih1 st1 hst1 with h | h
        · exact Or.inl (h.trans h2)
        · exact Or.inr (by rw [h, List.append_assoc])
    · rw [← List.append_assoc, ← ih2]
      exact congrFun (getLastD_cons_trace _ _ _ _ _) filename

/-- C15: in one publish cycle for a file destination `filename` whose rendered content
arrives in `chunks`, every file-system state of the cycle stores at `filename` either
what was there before or the whole new content; for a file destination the cycle ends
with the whole new content at `filename`. -/
theorem C15_atomic_publish (fs : FS) (filename : Str) (chunks : List Str) :
    (∀ st ∈ trace fs (publishOps filename chunks),
      st filename = fs filename ∨ st filename = some chunks.flatten)
    ∧ (filename ≠ [] → filename ≠ "-".toList →
        ((trace fs (publishOps filename chunks)).getLastD fs) filename
          = some chunks.flatten) := by
  unfold publishOps
  split
  · rename_i hc
    constructor
    · intro st hst
      simp [trace] at hst
      exact Or.inl (by rw [hst])
    · intro h1 h2
      exfalso
      simp at hc
      rcases hc with hc | hc
      · exact h1 hc
      · exact h2 hc
  · have hne := tmp_ne filename
    have h0 : (FsOp.apply fs (FsOp.openTrunc (filename ++ ".tmp".toList)))
        (filename ++ ".tmp".toList) = some [] := by
      simp [FsOp.apply]
    have h0f : (FsOp.apply fs (FsOp.openTrunc (filename ++ ".tmp".toList))) filename
        = fs filename := by
      simp [FsOp.apply, Ne.symm hne]
    obtain ⟨t1, t2⟩ := trace_writes filename (filename ++ ".tmp".toList) hne chunks _ [] h0
    simp only [List.nil_append] at t1 t2
    simp only [List.singleton_append, List.cons_append, trace, List.mem_cons]
    constructor
    · intro st hst
      rcases hst with rfl | hst
      · exact Or.inl rfl
      · rcases t1 st hst with h | h
        · exact Or.inl (h.trans h0f)
        · exact Or.inr h
    · intro _ _
      rw [← t2]
      exact congrFun (getLastD_cons_trace _ _ _ _ _) filename


/-- C15 on the sample file system: after the cycle `status` holds the new content. -/
theorem C15_atomic_publish_witness :
    ((trace FS.sample (publishOps "status".toList ["ab".toList, "cd".toList])).getLastD
        FS.sample) "status".toList = some ["ab".toList, "cd".toList].flatten :=
  (C15_atomic_publish FS.sample "status".toList ["ab".toList, "cd".toList]).2
    (by decide) (by decide)

/-! ## Machine integers: values in range -/

theorem toSizeT_natCast (n : Nat) (h : n < 2 ^ 64) : toSizeT (n : Int) = n := by
  unfold toSizeT
  norm_num at h ⊢
  omega

theorem toInt32_natCast (n : Nat) (h : n < 2 ^ 31) : toInt32 (n : Int) = n := by
  unfold toInt32
  norm_num at h ⊢
  omega

/-- The number of cells `gen_bar` appends, whatever the arguments. -/
theorem gen_bar_length (width value total : Int) :
    (gen_bar width value total).length
      = toSizeT (toInt32 (toSizeT (gen_bar_tick width value (if total = 0 then 1 else total))
            / kBlocks.length : Nat)) + 1
        + (toSizeT width
            - (toSizeT (toInt32 (toSizeT (gen_bar_tick width value
                (if total = 0 then 1 else total)) / kBlocks.length : Nat)) + 1) % 2 ^ 64) := by
  unfold gen_bar
  simp only [List.length_append, List.length_replicate, List.length_cons, List.length_nil]

theorem sizeT_nine_mul (w : Nat) (h1 : 1 ≤ w) (h : 9 * w ≤ 2147483648) :
    9 * w % 2 ^ 64 = 9 * w ∧ (9 * w + 2 ^ 64 - 1) % 2 ^ 64 = 9 * w - 1 := by
  constructor <;> omega

/-- The conversions `gen_bar` applies to a tick below `2 ^ 31` are exact. -/
theorem tick_conversions (T : Nat) (h : T < 2147483648) :
    toInt32 (T : Int) = T ∧ toSizeT (T : Int) = T
    ∧ toSizeT (toInt32 ((T / 9 : Nat) : Int)) = T / 9
    ∧ (toInt32 ((T % 9 : Nat) : Int)).toNat = T % 9
    ∧ (T / 9 + 1) % 2 ^ 64 = T / 9 + 1 := by
  have a1 : T / 9 < 2147483648 := by omega
  have a2 : T % 9 < 2147483648 := by omega
  refine ⟨toInt32_natCast T (by omega), toSizeT_natCast T (by omega), ?_, ?_, ?_⟩
  · rw [toInt32_natCast _ (by omega)]
    exact toSizeT_natCast _ (by omega)
  · rw [toInt32_natCast _ (by omega)]
    rfl
  · exact Nat.mod_eq_of_lt (by omega)

/-- Closed form of `gen_bar` when `9 * width` fits an `int`: every conversion is exact. -/
theorem gen_bar_in_range (width value total : Int) (hw : 1 ≤ width) (hw9 : 9 * width ≤ 2 ^ 31) :
    gen_bar width value total
      = List.replicate
          (min ((9 * width.toNat * toSizeT value % 2 ^ 64)
              / toSizeT (if total = 0 then 1 else total)) (9 * width.toNat - 1) / 9) kFull
        ++ [kBlocks.getD
          (min ((9 * width.toNat * toSizeT value % 2 ^ 64)
              / toSizeT (if total = 0 then 1 else total)) (9 * width.toNat - 1) % 9) ' ']
        ++ List.replicate (width.toNat -
          (min ((9 * width.toNat * toSizeT value % 2 ^ 64)
              / toSizeT (if total = 0 then 1 else total)) (9 * width.toNat - 1) / 9 + 1)) ' ' := by
  obtain ⟨w, rfl⟩ : ∃ w : Nat, width = (w : Int) := ⟨width.toNat, by omega⟩
  have hw2 : 9 * w ≤ 2147483648 := by norm_num at hw9; omega
  have e1 : toSizeT (w : Int) = w := toSizeT_natCast w (by omega)
  have e2 : kBlocks.length = 9 := rfl
  obtain ⟨e3, e4⟩ := sizeT_nine_mul w (by omega) hw2
  unfold gen_bar gen_bar_tick
  simp only [e1, e2, e3, e4, Int.toNat_ofNat]
  generalize (9 * w * toSizeT value % 2 ^ 64) / toSizeT (if total = 0 then 1 else total) = A
  have hT1 : min A (9 * w - 1) < 2147483648 := by
    have := Nat.min_le_right A (9 * w - 1)
    omega
  generalize min A (9 * w - 1) = T at hT1 ⊢
  obtain ⟨e5, e6, e7, e8, e9⟩ := tick_conversions T hT1
  rw [e5, e6, e7, e8, e9]
  rfl

/-- C7 as stated fails on two sides: with `total = 0` the guard turns the call into
`gen_bar(width, 0, 1)`, a bar of spaces; and a width whose ninefold exceeds the `int`
range does not give `width` cells. -/
theorem C7_counterexample :
    gen_bar 1 0 0 = [' '] ∧ gen_bar 1 0 0 ≠ List.replicate 1 kFull
    ∧ (gen_bar 238609295 1 1).length ≠ 238609295 := by
  refine ⟨by decide, by decide, ?_⟩
  rw [gen_bar_length]
  norm_num [gen_bar_tick, toSizeT, toInt32, kBlocks]
  decide

/-- C7, amended: for every width from 1 on with `9 * width ≤ 2 ^ 31` and every total with
`0 < total < 2 ^ 31`, `gen_bar(width, total, total)` is `width` full blocks. -/
theorem C7_full_bar (width total : Int) (hw : 1 ≤ width) (hw9 : 9 * width ≤ 2 ^ 31)
    (ht : 0 < total) (ht2 : total < 2 ^ 31) :
    gen_bar width total total = List.replicate width.toNat kFull := by
  rw [gen_bar_in_range width total total hw hw9]
  obtain ⟨w, rfl⟩ : ∃ w : Nat, width = (w : Int) := ⟨width.toNat, by omega⟩
  obtain ⟨t, rfl⟩ : ∃ t : Nat, total = (t : Int) := ⟨total.toNat, by omega⟩
  have hw1 : 1 ≤ w := by omega
  have hw2 : 9 * w ≤ 2147483648 := by omega
  have ht1 : 0 < t := by omega
  have ht3 : t < 2147483648 := by omega
  have hne : ¬ ((t : Int) = 0) := by omega
  have hmul : 9 * w * t < 2 ^ 64 := by
    have : 9 * w * t ≤ 2147483648 * 2147483648 := Nat.mul_le_mul hw2 (by omega)
    omega
  rw [if_neg hne, toSizeT_natCast t (by omega), Int.toNat_ofNat, Nat.mod_eq_of_lt hmul,
    Nat.mul_div_cancel _ ht1]
  have hmin : min (9 * w) (9 * w - 1) = 9 * w - 1 := by omega
  have hdiv : (9 * w - 1) / 9 = w - 1 := by omega
  have hmod : (9 * w - 1) % 9 = 8 := by omega
  have hsub : w - (w - 1 + 1) = 0 := by omega
  rw [hmin, hdiv, hmod, hsub]
  obtain ⟨m, rfl⟩ : ∃ m, w = m + 1 := ⟨w - 1, by omega⟩
  rw [Nat.add_sub_cancel, List.replicate_succ', List.replicate_zero, List.append_nil]
  rfl

/-- C7, amended, at width 5 and total 7. -/
theorem C7_full_bar_witness : gen_bar 5 7 7 = List.replicate (5 : Int).toNat kFull :=
  C7_full_bar 5 7 (by decide) (by decide) (by decide) (by decide)

/-- C8 as stated fails: the code works with the nine entries of the ramp, not with eight.
At `width = value = total = 1` the code gives the full block, the reference with 8
gives the glyph of level 7. -/
theorem C8_counterexample :
    gen_bar 1 1 1 = [Char.ofNat 0x2588] ∧ gen_bar_spec 8 1 1 1 = [Char.ofNat 0x2589]
    ∧ gen_bar 1 1 1 ≠ gen_bar_spec 8 1 1 1 := by
  refine ⟨by decide, by decide, by decide⟩

/-- C8, amended: for `1 ≤ width` with `9 * width ≤ 2 ^ 31` and `value`, `total` from 0 up
to the `int` range, `gen_bar` is the reference rendering with 9 in place of 8:
`tick = min(width*9*value/total, width*9-1)` with a zero total taken as 1, `tick/9` full
blocks, the ramp glyph of level `tick mod 9`, spaces up to `width`. -/
theorem C8_bar_reference (width value total : Int) (hw : 1 ≤ width) (hw9 : 9 * width ≤ 2 ^ 31)
    (hv : 0 ≤ value) (hv2 : value < 2 ^ 31) (ht : 0 ≤ total) (ht2 : total < 2 ^ 31) :
    gen_bar width value total = gen_bar_spec 9 width.toNat value.toNat total.toNat := by
  rw [gen_bar_in_range width value total hw hw9]
  obtain ⟨w, rfl⟩ : ∃ w : Nat, width = (w : Int) := ⟨width.toNat, by omega⟩
  obtain ⟨v, rfl⟩ : ∃ v : Nat, value = (v : Int) := ⟨value.toNat, by omega⟩
  obtain ⟨t, rfl⟩ : ∃ t : Nat, total = (t : Int) := ⟨total.toNat, by omega⟩
  have hw2 : 9 * w ≤ 2147483648 := by omega
  have hv3 : v < 2147483648 := by omega
  have ht3 : t < 2147483648 := by omega
  have hmul : 9 * w * v < 2 ^ 64 := by
    have : 9 * w * v ≤ 2147483648 * 2147483648 := Nat.mul_le_mul hw2 (by omega)
    omega
  have htot : toSizeT (if (t : Int) = 0 then 1 else (t : Int)) = if t = 0 then 1 else t := by
    by_cases h0 : t = 0
    · subst h0; decide
    · have : ¬ ((t : Int) = 0) := by omega
      rw [if_neg this, if_neg h0]
      exact toSizeT_natCast t (by omega)
  simp only [Int.toNat_ofNat]
  rw [htot, toSizeT_natCast v (by omega), Nat.mod_eq_of_lt hmul]
  unfold gen_bar_spec
  rw [Nat.mul_comm w 9]

/-- C8, amended, at width 5, value 1, total 2. -/
theorem C8_bar_reference_witness :
    gen_bar 5 1 2 = gen_bar_spec 9 (5 : Int).toNat (1 : Int).toNat (2 : Int).toNat :=
  C8_bar_reference 5 1 2 (by decide) (by decide) (by decide) (by decide) (by decide)
    (by decide)

/-- C19 as stated fails for a width whose ninefold exceeds the `int` range: at width
238609295 the narrowed tick is negative and the bar has 1670265061 cells. -/
theorem C19_counterexample :
    (gen_bar 238609295 1 1).length = 1670265061
    ∧ (gen_bar 238609295 1 1).length ≠ 238609295 := by
  rw [gen_bar_length]
  norm_num [gen_bar_tick, toSizeT, toInt32, kBlocks]
  constructor
  · rfl
  · decide

/-- C19, amended: for `1 ≤ width` with `9 * width ≤ 2 ^ 31` and every value and total,
`gen_bar` consists of some full blocks, one glyph of the ramp and some spaces, `width`
cells in all. -/
theorem C19_bar_cells (width value total : Int) (hw : 1 ≤ width) (hw9 : 9 * width ≤ 2 ^ 31) :
    ∃ (a b : Nat) (g : Char),
      gen_bar width value total = List.replicate a kFull ++ [g] ++ List.replicate b ' '
      ∧ g ∈ kBlocks ∧ a + 1 + b = width.toNat
      ∧ (gen_bar width value total).length = width.toNat := by
  rw [gen_bar_in_range width value total hw hw9]
  generalize (9 * width.toNat * toSizeT value % 2 ^ 64)
    / toSizeT (if total = 0 then 1 else total) = A
  have hT : min A (9 * width.toNat - 1) ≤ 9 * width.toNat - 1 := Nat.min_le_right _ _
  generalize min A (9 * width.toNat - 1) = T at hT
  have hw1 : 1 ≤ width.toNat := by omega
  have hsum : T / 9 + 1 + (width.toNat - (T / 9 + 1)) = width.toNat := by omega
  refine ⟨T / 9, width.toNat - (T / 9 + 1), kBlocks.getD (T % 9) ' ', rfl, ?_, hsum, ?_⟩
  · have hr : T % 9 < 9 := Nat.mod_lt _ (by decide)
    generalize T % 9 = r at hr
    interval_cases r <;> decide
  · simp only [List.length_append, List.length_replicate, List.length_cons, List.length_nil]
    exact hsum

/-- C19, amended, at width 5, value 1, total 2. -/
theorem C19_bar_cells_witness :
    ∃ (a b : Nat) (g : Char),
      gen_bar 5 1 2 = List.replicate a kFull ++ [g] ++ List.replicate b ' '
      ∧ g ∈ kBlocks ∧ a + 1 + b = (5 : Int).toNat
      ∧ (gen_bar 5 1 2).length = (5 : Int).toNat :=
  C19_bar_cells 5 1 2 (by decide) (by decide)


/-! ## The per-core glyph -/

/-- C9 as stated fails: the utilization is converted to `int` before the glyph is chosen.
For a stored utilization of 11.5 the code emits level 0 (a space), whereas
`floor(9 * 11.5 / 100)` is level 1. -/
theorem C9_counterexample :
    cpuGlyph (23 / 2) = [' '] ∧ cpuGlyphIndex_spec (23 / 2) = 1
    ∧ cpuGlyph (23 / 2) ≠ [kVBlocks.getD (cpuGlyphIndex_spec (23 / 2)) ' '] := by
  have h1 : truncToInt (23 / 2) = 11 := by
    unfold truncToInt
    rw [if_pos (by norm_num), Int.floor_eq_iff]
    constructor <;> norm_num
  have h2 : cpuGlyphIndex_spec (23 / 2) = 1 := by
    unfold cpuGlyphIndex_spec
    have : ⌊(9 : ℚ) * (23 / 2) / 100⌋ = 1 := by
      rw [Int.floor_eq_iff]
      constructor <;> norm_num
    rw [this]
    rfl
  have h3 : cpuGlyph (23 / 2) = [' '] := by
    unfold cpuGlyph
    rw [h1]
    decide
  refine ⟨h3, h2, ?_⟩
  rw [h3, h2]
  decide

/-- C9, amended: for a stored utilization `u` with `0 ≤ u ≤ 100` the glyph emitted for the
core is the entry of the vertical ramp at index `min(9 * floor(u) / 100, 8)` (integer
division), the utilization being cut to its integer part first. -/
theorem C9_core_glyph (u : ℚ) (h0 : 0 ≤ u) (h100 : u ≤ 100) :
    cpuGlyph u = [kVBlocks.getD (min (9 * ⌊u⌋.toNat / 100) 8) ' '] := by
  have hf0 : 0 ≤ ⌊u⌋ := Int.floor_nonneg.mpr h0
  have hf1 : ⌊u⌋ ≤ 100 := by
    have : ⌊u⌋ ≤ ⌊(100 : ℚ)⌋ := Int.floor_le_floor h100
    simpa using this
  unfold cpuGlyph truncToInt
  rw [if_pos h0]
  obtain ⟨n, hn⟩ : ∃ n : Nat, ⌊u⌋ = (n : Int) := ⟨⌊u⌋.toNat, by omega⟩
  rw [hn] at hf1 ⊢
  have hn1 : n ≤ 100 := by omega
  unfold gen_vertical_bar
  have e1 : toSizeT (n : Int) = n := toSizeT_natCast n (by omega)
  have e2 : toSizeT (if (100 : Int) = 0 then 1 else 100) = 100 := by decide
  have e3 : kVBlocks.length = 9 := rfl
  have e4 : 9 * n % 2 ^ 64 = 9 * n := Nat.mod_eq_of_lt (by omega)
  simp only [e1, e2, e3, e4, Int.toNat_ofNat]
  have e5 : min (9 * n / 100) (9 - 1) = min (9 * n / 100) 8 := rfl
  rw [e5, toInt32_natCast _ (by omega), Int.toNat_ofNat]

/-- C9, amended, at a stored utilization of 50. -/
theorem C9_core_glyph_witness :
    cpuGlyph 50 = [kVBlocks.getD (min (9 * ⌊(50 : ℚ)⌋.toNat / 100) 8) ' '] :=
  C9_core_glyph 50 (by norm_num) (by norm_num)

/-! ## Defects -/

/-- C1 (the code departs from the claim): `Trim` hands `p2 - p1` to `substr` and so cuts
the last digit.  The line `MemTotal:       16384 kB` sets `mem_total_` to 1638, and on
the line `SwapTotal:           0 kB` the text given to `std::stoull` is empty, which
throws. -/
theorem C1_trim_cuts_last_digit :
    Trim "       16384 ".toList = "1638".toList
    ∧ (UpdateMemory Stat.zero ["MemTotal:       16384 kB".toList]).stat.mem_total_ = 1638
    ∧ Trim "           0 ".toList = []
    ∧ (UpdateMemory Stat.zero ["SwapTotal:           0 kB".toList]).isDone = false := by
  refine ⟨by decide, by decide, by decide, by decide⟩

/-- C2 (the code departs from the claim): the hour is `epoch & 24`, not `epoch % 24`.
One hour of uptime is shown as `0days 00:00:00`, and 90061 seconds (1 day, 1 hour,
1 minute, 1 second) as `1days 24:01:01`. -/
theorem C2_hour_is_bitwise_and :
    human_readable_time 3600 = "0days 00:00:00".toList
    ∧ human_readable_time 90061 = "1days 24:01:01".toList := by
  constructor
  · have h : truncToInt 3600 = 3600 := by
      unfold truncToInt
      rw [if_pos (by norm_num)]
      exact Int.floor_intCast 3600
    unfold human_readable_time
    rw [h]
    decide
  · have h : truncToInt 90061 = 90061 := by
      unfold truncToInt
      rw [if_pos (by norm_num)]
      exact Int.floor_intCast 90061
    unfold human_readable_time
    rw [h]
    decide

end Yustat
